import Mathlib

/-!
Shallow embedding of the `oci-watcher` reconciliation agent (Go sources
`io.go`, `docker.go`, `main.go`).  Pure functions of the source are
translated directly; filesystem, network and subprocess effects are made
explicit: the filesystem state is threaded through the functions, and the
results of external operations (registry fetches, gzip/tar decoding of a
fetched stream, GPG primitives, docker invocations) are supplied as
oracle records, with each call site consuming the oracle exactly where the
Go code performs the call.
-/

namespace OciWatcher

/-- One entry of a tar archive, as seen by `unpackTgz`: the header name,
the type flag byte, the mode bits, and (for regular files) the content. -/
structure TarEntry where
  name : String
  typeflag : Nat
  mode : Nat
  content : String
deriving DecidableEq, Repr

/-- The tar type flag `tar.TypeReg`, ASCII '0'. -/
def tarTypeReg : Nat := 48

/-- The tar type flag `tar.TypeDir`, ASCII '5'. -/
def tarTypeDir : Nat := 53

/-- Whether the first character list is a prefix of the second (the
character-level content of Go strings; used because the byte-position
based library string functions do not evaluate inside the kernel). -/
def charsHasPrefix : List Char → List Char → Bool
  | [], _ => true
  | _ :: _, [] => false
  | p :: ps, c :: cs => p == c && charsHasPrefix ps cs

/-- Go's `strings.HasPrefix(s, prefixStr)`. -/
def goHasPrefix (s prefixStr : String) : Bool :=
  charsHasPrefix prefixStr.data s.data

/-- Go's `strings.HasSuffix(s, suffixStr)`. -/
def goHasSuffix (s suffixStr : String) : Bool :=
  charsHasPrefix suffixStr.data.reverse s.data.reverse

/-- Splitting a character list around each non-overlapping instance of a
non-empty separator, scanning left to right; `fuel` only drives the
recursion and is in practice the length of the list. -/
def charsSplit (sep : List Char) : Nat → List Char → List (List Char)
  | _, [] => [[]]
  | 0, s => [s]
  | fuel + 1, c :: rest =>
    if charsHasPrefix sep (c :: rest) && !sep.isEmpty then
      [] :: charsSplit sep fuel (List.drop sep.length (c :: rest))
    else
      match charsSplit sep fuel rest with
      | [] => [[c]]
      | part :: parts => (c :: part) :: parts

/-- Go's `strings.Split(s, sep)` for a non-empty separator: the substrings
between the non-overlapping instances of `sep`; `[s]` when `sep` does not
occur in `s`. -/
def goSplit (s sep : String) : List String :=
  (charsSplit sep.data s.data.length s.data).map String.mk

/-- A filesystem effect performed by `unpackTgz`: `os.MkdirAll` for a
directory entry, or the `os.OpenFile`+`io.Copy` write for a regular file. -/
inductive FsOp where
  | mkdirAll (path : String) (mode : Nat)
  | writeFile (path : String) (mode : Nat) (content : String)
deriving DecidableEq, Repr

/-- Lexical path cleaning over `/`-separated components of a rooted path,
as performed by Go's `path/filepath.Clean`: empty and `.` components are
dropped, `..` removes the preceding component (and is dropped at the
root). -/
def cleanAbs (parts : List String) : List String :=
  parts.foldl
    (fun acc c =>
      if c = "" ∨ c = "." then acc
      else if c = ".." then acc.dropLast
      else acc ++ [c])
    []

/-- Go's `filepath.Join(dir, name)` for a rooted `dir`: concatenate with a
separator and clean lexically.  This is what computes the extraction
target `target := filepath.Join(destDir, header.Name)`. -/
def filepathJoin (dir name : String) : String :=
  "/" ++ String.intercalate "/" (cleanAbs (goSplit (dir ++ "/" ++ name) "/"))

/-- The body of `unpackTgz`'s entry loop: hidden entries are skipped when
`skipHidden` is set, directory entries become `MkdirAll`, regular files
are created and filled, and any other type flag is skipped with a warning
(the `default` branch logs and continues, it does not return an error). -/
def unpackEntries (destDir : String) (skipHidden : Bool) : List TarEntry → List FsOp
  | [] => []
  | e :: rest =>
    if skipHidden ∧ goHasPrefix e.name "." then
      unpackEntries destDir skipHidden rest
    else
      let target := filepathJoin destDir e.name
      if e.typeflag = tarTypeDir then
        FsOp.mkdirAll target e.mode :: unpackEntries destDir skipHidden rest
      else if e.typeflag = tarTypeReg then
        FsOp.writeFile target e.mode e.content :: unpackEntries destDir skipHidden rest
      else
        unpackEntries destDir skipHidden rest

/-- The function `unpackTgz(src, destDir, skipHidden)`.  The gzip/tar decoding of the
byte stream is external, so the source stream is modelled as either a
decode failure (`gzip.NewReader` or `tar.Next` returning an error, which
`unpackTgz` propagates) or the decoded entry list; the function returns
the trace of filesystem effects it performs. -/
def unpackTgz (src : Except String (List TarEntry)) (destDir : String)
    (skipHidden : Bool) : Except String (List FsOp) :=
  match src with
  | .error e => .error e
  | .ok es => .ok (unpackEntries destDir skipHidden es)

/-- The filesystem effect a single non-hidden entry produces (`none` for
unsupported type flags). -/
def entryOp (destDir : String) (e : TarEntry) : Option FsOp :=
  if e.typeflag = tarTypeDir then
    some (FsOp.mkdirAll (filepathJoin destDir e.name) e.mode)
  else if e.typeflag = tarTypeReg then
    some (FsOp.writeFile (filepathJoin destDir e.name) e.mode e.content)
  else
    none

/-- The path a filesystem effect touches. -/
def FsOp.path : FsOp → String
  | .mkdirAll p _ => p
  | .writeFile p _ _ => p

/-- The names of the entries a skip-hidden extraction materialises on disk
(directories and regular files; hidden names skipped, other type flags
produce nothing).  This is what a subsequent `filepath.Walk` over the
destination can see. -/
def extractedNames (es : List TarEntry) : List String :=
  (es.filter fun e =>
      ¬ goHasPrefix e.name "." ∧ (e.typeflag = tarTypeDir ∨ e.typeflag = tarTypeReg)).map
    (·.name)

/-- The names of the regular files a skip-hidden extraction materialises. -/
def extractedRegNames (es : List TarEntry) : List String :=
  (es.filter fun e => ¬ goHasPrefix e.name "." ∧ e.typeflag = tarTypeReg).map (·.name)

/-- The function `findAppFiles` run on a directory freshly populated by a skip-hidden
extraction of `es`: `filepath.Walk` collects every non-directory file
whose name ends in `.app`. -/
def findAppFiles (es : List TarEntry) : List String :=
  (extractedRegNames es).filter (fun n => goHasSuffix n ".app")

deriving instance DecidableEq for Except

/-- Results of the two external GPG primitives used by
`verifyGPGSignature`: `openpgp.ReadArmoredKeyRing` on the fetched key, and
`openpgp.CheckDetachedSignature` on (keyring, signed, signature). -/
structure GPGEnv where
  keyringParse : Except String Unit
  checkResult : Except String Unit
deriving DecidableEq, Repr

/-- The function `verifyGPGSignature(pubKey, signedFile, signatureFile)`: parse the
armored keyring (propagating its error), open the signature file
(`os.Open` fails when the `.sig` file does not exist; the signed file was
just located by `findAppFiles`, so opening it succeeds), then check the
detached signature, wrapping its error as
`"signature verification failed: ..."`. -/
def verifyGPGSignature (g : GPGEnv) (sigFileExists : Bool) : Except String Unit :=
  match g.keyringParse with
  | .error e => .error e
  | .ok _ =>
    if ¬ sigFileExists then
      .error "open signature file: no such file or directory"
    else
      match g.checkResult with
      | .error e => .error ("signature verification failed: " ++ e)
      | .ok _ => .ok ()

/-- One component of the desired-state manifest
(`Spec.DeploymentProfile.Components[i]` with its `Properties`). -/
structure Component where
  name : String
  keyLocation : String
  packageLocation : String
deriving DecidableEq, Repr

/-- The state of one top-level deployment directory `<deployDir>/<name>`:
the content of its `.hash` marker file (`none` when the file is absent)
and the remaining directory tree, recorded as the tar entries unpacked
into it.  (`.hash` is kept out of `files`: skip-hidden extraction never
writes a name starting with `.`, so only the explicit `os.WriteFile` of
the reconciler touches it.) -/
structure DirState where
  hash : Option String
  files : List TarEntry
deriving DecidableEq, Repr

/-- The deployment root `<deployDir>`: its top-level directories in
directory-listing order. -/
abbrev Fs := List (String × DirState)

/-- Look up a top-level deployment directory by name. -/
def fsLookup : Fs → String → Option DirState
  | [], _ => none
  | (m, st) :: rest, n => if m = n then some st else fsLookup rest n

/-- Create or replace a top-level deployment directory (a fresh directory
appears at the end of the listing). -/
def fsSet : Fs → String → DirState → Fs
  | [], n, st => [(n, st)]
  | (m, old) :: rest, n, st =>
    if m = n then (n, st) :: rest else (m, old) :: fsSet rest n st

/-- The effect of `os.RemoveAll` on a top-level deployment directory. -/
def fsRemove : Fs → String → Fs
  | [], _ => []
  | (m, st) :: rest, n => if m = n then fsRemove rest n else (m, st) :: fsRemove rest n

/-- The stored digest of component `n`: the content of
`<deployDir>/<n>/.hash` when that file exists (`fileExists` + read). -/
def storedHash (fs : Fs) (n : String) : Option String :=
  (fsLookup fs n).bind (·.hash)

/-- The check `fileExists(path.Join(destDir, "docker-compose.yaml"))`: the directory
declares a compose descriptor. -/
def hasComposeEntry (files : List TarEntry) : Bool :=
  files.any (·.name = "docker-compose.yaml")

/-- Externally visible actions of a reconciliation pass, in order:
registry blob fetches (`downloadFromOCI`), `dockerEnsureRunning`
invocations (whose own failure the reconciler only logs),
`docker-compose down` invocations, docker image loads, and stale-directory
purges. -/
inductive Event where
  | fetch (url : String)
  | ensureRunning (dir : String)
  | composeDown (dir : String)
  | uploadTar (name : String)
  | purged (name : String)
deriving DecidableEq, Repr

/-- Whether an event is the purge of a stale deployment directory. -/
def Event.isPurge : Event → Bool
  | .purged _ => true
  | _ => false

/-- How a reconciliation pass (or one component's pipeline) ends: normal
return, an error returned to the caller, or a Go runtime panic. -/
inductive Outcome where
  | ok
  | goError (msg : String)
  | panicked (msg : String)
deriving DecidableEq, Repr

/-- Result of running a piece of the reconciler: the filesystem after it,
the events it performed, and how it ended. -/
structure PassResult where
  fs : Fs
  trace : List Event
  outcome : Outcome
deriving DecidableEq, Repr

/-- Result of the component loop: additionally the `allowedDeployments`
names collected for the purge phase. -/
structure LoopResult where
  fs : Fs
  trace : List Event
  outcome : Outcome
  allowed : List String
deriving DecidableEq, Repr

/-- Results of the external operations one component's pipeline performs,
consumed at the corresponding call sites: `os.MkdirTemp`, the two
`downloadFromOCI` calls, the gzip/tar decoding of the fetched package
stream (its entries on success), the GPG primitives, the gzip/tar decoding
of the located `.app` file's payload, `docker-compose down` in the
teardown branch, and the docker image load for `.tar` files. -/
structure CompEnv where
  mkTemp : Except String String
  keyFetch : Except String Unit
  pkgFetch : Except String Unit
  pkgEntries : Except String (List TarEntry)
  gpg : GPGEnv
  appPayload : Except String (List TarEntry)
  composeDown : Except String Unit
  upload : Except String Unit
deriving DecidableEq, Repr

/-- Tail of a successful verification: `os.Open(app)` (succeeds, the file
was just extracted), `os.MkdirAll(destDir, 0o755)`, `unpackTgz(f, destDir,
true)` of the `.app` payload (decode failure propagated), the
`filepath.Walk` that loads every regular `.tar` file of the resulting
directory into docker (aborting on the first failure, performing no load
when there is none), and the final `dockerEnsureRunning`, whose error is
only logged.  `fsWith` already contains the directory `base` the payload
is unpacked over. -/
def finishDeploy (deployDir : String) (c : Component) (env : CompEnv) (fsWith : Fs)
    (base : DirState) (tr : List Event) : PassResult :=
  let destDir := deployDir ++ "/" ++ c.name
  match env.appPayload with
  | .error e => ⟨fsWith, tr, .goError e⟩
  | .ok payload =>
    let st : DirState :=
      { base with
        files := base.files ++ payload.filter fun e =>
          ¬ goHasPrefix e.name "." ∧ (e.typeflag = tarTypeDir ∨ e.typeflag = tarTypeReg) }
    let fs := fsSet fsWith c.name st
    let tars :=
      (st.files.filter fun e => e.typeflag = tarTypeReg ∧ goHasSuffix e.name ".tar").map (·.name)
    if tars.isEmpty then
      ⟨fs, tr ++ [Event.ensureRunning destDir], .ok⟩
    else
      match env.upload with
      | .error e => ⟨fs, tr, .goError e⟩
      | .ok _ =>
        ⟨fs, tr ++ tars.map Event.uploadTar ++ [Event.ensureRunning destDir], .ok⟩

/-- The body of the reconciler's component loop (`io.go` lines 213–313),
for one component: compute `expectedHash` by indexing element 1 of
`strings.Split(packageLocation, "sha256:")` (a run-time panic when it does
not exist); if the stored digest matches, only ensure the deployment is
running; otherwise create a scratch directory, fetch key and package,
unpack the package into the scratch directory skipping hidden entries,
index element 0 of `findAppFiles` (a run-time panic when no `.app` file
was extracted), verify the GPG signature, write `expectedHash` to
`<destDir>/.hash` (`os.WriteFile` fails when `destDir` does not exist —
it is created only later), tear down and remove an existing compose
deployment, and materialise and start the new content.  Every error
returns immediately. -/
def processComponent (deployDir : String) (c : Component) (env : CompEnv)
    (fs : Fs) : PassResult :=
  let destDir := deployDir ++ "/" ++ c.name
  match (goSplit c.packageLocation "sha256:").get? 1 with
  | none => ⟨fs, [], .panicked "runtime error: index out of range [1] with length 1"⟩
  | some expectedHash =>
    if storedHash fs c.name = some expectedHash then
      ⟨fs, [Event.ensureRunning destDir], .ok⟩
    else
      match env.mkTemp with
      | .error e => ⟨fs, [], .goError e⟩
      | .ok _tempDir =>
      match env.keyFetch with
      | .error e => ⟨fs, [Event.fetch c.keyLocation], .goError e⟩
      | .ok _ =>
      match env.pkgFetch with
      | .error e => ⟨fs, [Event.fetch c.keyLocation, Event.fetch c.packageLocation], .goError e⟩
      | .ok _ =>
      let netTr := [Event.fetch c.keyLocation, Event.fetch c.packageLocation]
      match env.pkgEntries with
      | .error e => ⟨fs, netTr, .goError e⟩
      | .ok es =>
      match (findAppFiles es).get? 0 with
      | none => ⟨fs, netTr, .panicked "runtime error: index out of range [0] with length 0"⟩
      | some app =>
      match verifyGPGSignature env.gpg ((app ++ ".sig") ∈ extractedNames es) with
      | .error e => ⟨fs, netTr, .goError e⟩
      | .ok _ =>
      match fsLookup fs c.name with
      | none =>
        ⟨fs, netTr, .goError ("open " ++ destDir ++ "/.hash: no such file or directory")⟩
      | some st =>
        let fs1 := fsSet fs c.name { st with hash := some expectedHash }
        if hasComposeEntry st.files then
          match env.composeDown with
          | .error e => ⟨fs1, netTr ++ [Event.composeDown destDir], .goError e⟩
          | .ok _ =>
            let fs2 := fsSet (fsRemove fs1 c.name) c.name ⟨none, []⟩
            finishDeploy deployDir c env fs2 ⟨none, []⟩ (netTr ++ [Event.composeDown destDir])
        else
          finishDeploy deployDir c env fs1 { st with hash := some expectedHash } netTr

/-- Step 1 of `reconcileDeployments`: process the manifest's components in
order, recording each name in `allowedDeployments` before its pipeline
runs; the first error or panic returns immediately from the function, so
later components are not reached. -/
def reconcileLoop (deployDir : String) (env : String → CompEnv) :
    List Component → Fs → List String → LoopResult
  | [], fs, allowed => ⟨fs, [], .ok, allowed⟩
  | c :: rest, fs, allowed =>
    let a2 := allowed ++ [c.name]
    let r := processComponent deployDir c (env c.name) fs
    match r.outcome with
    | .ok =>
      let r2 := reconcileLoop deployDir env rest r.fs a2
      ⟨r2.fs, r.trace ++ r2.trace, r2.outcome, r2.allowed⟩
    | .goError e => ⟨r.fs, r.trace, .goError e, a2⟩
    | .panicked m => ⟨r.fs, r.trace, .panicked m, a2⟩

/-- Step 2 of `reconcileDeployments`: enumerate the top-level deployment
directories; every directory whose name was not recorded in
`allowedDeployments` is brought down (`docker-compose down`, failure only
logged) and removed unconditionally. -/
def purgePhase (deployDir : String) : Fs → List String → Fs × List Event
  | [], _ => ([], [])
  | (n, st) :: rest, allowed =>
    let (fs, tr) := purgePhase deployDir rest allowed
    if n ∈ allowed then ((n, st) :: fs, tr)
    else (fs, Event.composeDown (deployDir ++ "/" ++ n) :: Event.purged n :: tr)

/-- The function `reconcileDeployments(ociRegistry, deployDir)`: fetch the desired
state (`getAppDeployment`; a failure there is returned before anything
else happens), run the component loop, and — only when the loop returned
normally — purge the stale directories.  An error returns early (the purge
phase is skipped) and a panic aborts the pass as well. -/
def reconcileDeployments (deployDir : String)
    (manifestFetch : Except String (List Component)) (env : String → CompEnv)
    (fs : Fs) : PassResult :=
  match manifestFetch with
  | .error e => ⟨fs, [], .goError e⟩
  | .ok comps =>
    let r := reconcileLoop deployDir env comps fs []
    match r.outcome with
    | .ok =>
      let (fs2, tr2) := purgePhase deployDir r.fs r.allowed
      ⟨fs2, r.trace ++ tr2, .ok⟩
    | .goError e => ⟨r.fs, r.trace, .goError e⟩
    | .panicked m => ⟨r.fs, r.trace, .panicked m⟩

/-! Concrete fixtures: a two-component manifest and the oracle outcomes of
a healthy pipeline, used to evaluate the pass at specific inputs. -/

/-- Component `A` of the test manifest. -/
def compA : Component :=
  { name := "A"
    keyLocation := "http://ghcr.io/v2/o/r/blobs/sha256:aaaa0000"
    packageLocation := "http://ghcr.io/v2/o/r/blobs/sha256:aaaa1111" }

/-- Component `B` of the test manifest. -/
def compB : Component :=
  { name := "B"
    keyLocation := "http://ghcr.io/v2/o/r/blobs/sha256:bbbb0000"
    packageLocation := "http://ghcr.io/v2/o/r/blobs/sha256:bbbb1111" }

/-- Entries of a well-formed fetched package: one application descriptor
plus its co-located detached signature. -/
def pkgEntriesB : List TarEntry :=
  [⟨"b.app", tarTypeReg, 420, "app-bytes"⟩, ⟨"b.app.sig", tarTypeReg, 420, "sig-bytes"⟩]

/-- Oracle outcomes of a fully healthy pipeline for component `B`. -/
def envOkB : CompEnv :=
  { mkTemp := .ok "/tmp/B1234"
    keyFetch := .ok ()
    pkgFetch := .ok ()
    pkgEntries := .ok pkgEntriesB
    gpg := ⟨.ok (), .ok ()⟩
    appPayload := .ok [⟨"docker-compose.yaml", tarTypeReg, 420, "services:"⟩]
    composeDown := .ok ()
    upload := .ok () }

/-- Oracle outcomes for a component whose key fetch fails with a network
error (nothing later in its pipeline is consulted). -/
def envNetFailA : CompEnv :=
  { envOkB with keyFetch := .error "network error" }

/-- The up-to-date directory state of component `A`: its stored digest is
the digest embedded in `compA.packageLocation`. -/
def dirA : DirState :=
  ⟨some "aaaa1111", [⟨"docker-compose.yaml", tarTypeReg, 420, "services:"⟩]⟩

/-- A stale deployment directory named `C`, absent from the test manifest. -/
def dirC : DirState := ⟨some "cccc2222", []⟩

/-- An up-to-date directory state for component `B`. -/
def dirB : DirState := ⟨some "bbbb1111", [⟨"b.conf", tarTypeReg, 420, "cfg"⟩]⟩

/-- A stale directory state for component `B` that declares a compose
descriptor, so a re-apply takes the teardown branch. -/
def dirBCompose : DirState :=
  ⟨some "stale0000", [⟨"docker-compose.yaml", tarTypeReg, 420, "services:"⟩]⟩

/-- The per-component oracles of the two-component test pass: component
`A` hits a network error on its key fetch, everything else is healthy. -/
def envC1 (n : String) : CompEnv :=
  if n = "A" then envNetFailA else envOkB

/-- Whether an event is a registry blob fetch. -/
def Event.isFetch : Event → Bool
  | .fetch _ => true
  | _ => false

/-- A component whose package location embeds no `sha256:` digest. -/
def compBad : Component :=
  { name := "N"
    keyLocation := "http://ghcr.io/v2/o/r/blobs/sha256:nnnn0000"
    packageLocation := "http://ghcr.io/v2/o/r/blobs/latest" }

/-- Oracle outcomes identical to the healthy ones except that the
detached-signature check fails. -/
def envSigFailB : CompEnv :=
  { envOkB with gpg := ⟨.ok (), .error "openpgp: invalid signature"⟩ }

/-- Oracle outcomes identical to the healthy ones except that the fetched
package archive contains no application descriptor file. -/
def envNoAppB : CompEnv :=
  { envOkB with pkgEntries := .ok [⟨"readme.txt", tarTypeReg, 420, "hello"⟩] }

/-- A deployment root holding directories A, B and C, with A and B
up-to-date for the test manifest. -/
def fsABC : Fs := [("A", dirA), ("B", dirB), ("C", dirC)]

/-! Theorems.  First a layer of helper lemmas about the filesystem
operations and the loop structure, then one theorem per claim. -/

/-- Looking up a name other than the one set is unchanged. -/
theorem fsLookup_fsSet_ne (fs : Fs) (m n : String) (st : DirState) (h : n ≠ m) :
    fsLookup (fsSet fs m st) n = fsLookup fs n := by
  have hmn : ¬ (m = n) := fun hh => h hh.symm
  induction fs with
  | nil => simp [fsSet, fsLookup, hmn]
  | cons p rest ih =>
    cases p with
    | mk q old =>
      by_cases hq : q = m
      · subst hq
        simp [fsSet, fsLookup, hmn]
      · simp [fsSet, fsLookup, hq, ih]

/-- Looking up a name other than the one removed is unchanged. -/
theorem fsLookup_fsRemove_ne (fs : Fs) (m n : String) (h : n ≠ m) :
    fsLookup (fsRemove fs m) n = fsLookup fs n := by
  have hmn : ¬ (m = n) := fun hh => h hh.symm
  induction fs with
  | nil => rfl
  | cons p rest ih =>
    cases p with
    | mk q old =>
      by_cases hq : q = m
      · subst hq
        simp [fsRemove, fsLookup, hmn, ih]
      · simp [fsRemove, fsLookup, hq, ih]

/-- The deployment materialisation step only writes the component's own
directory. -/
theorem finishDeploy_frame (dd : String) (c : Component) (env : CompEnv)
    (fsWith : Fs) (base : DirState) (tr : List Event) (n : String) (h : n ≠ c.name) :
    fsLookup (finishDeploy dd c env fsWith base tr).fs n = fsLookup fsWith n := by
  unfold finishDeploy
  cases env.appPayload with
  | error e => rfl
  | ok payload =>
    dsimp only
    split
    · simp [fsLookup_fsSet_ne _ _ _ _ h]
    · cases env.upload with
      | error e => simp [fsLookup_fsSet_ne _ _ _ _ h]
      | ok u => simp [fsLookup_fsSet_ne _ _ _ _ h]

/-- One component's pipeline never touches the deployment directory of a
differently named component. -/
theorem processComponent_frame (dd : String) (c : Component) (env : CompEnv)
    (fs : Fs) (n : String) (h : n ≠ c.name) :
    fsLookup (processComponent dd c env fs).fs n = fsLookup fs n := by
  unfold processComponent
  cases (goSplit c.packageLocation "sha256:").get? 1 with
  | none => rfl
  | some d =>
    by_cases hup : storedHash fs c.name = some d
    · simp [hup]
    · simp only [if_neg hup]
      cases env.mkTemp with
      | error e => rfl
      | ok t =>
      dsimp only
      cases env.keyFetch with
      | error e => rfl
      | ok u1 =>
      dsimp only
      cases env.pkgFetch with
      | error e => rfl
      | ok u2 =>
      dsimp only
      cases env.pkgEntries with
      | error e => rfl
      | ok es =>
      dsimp only
      cases (findAppFiles es).get? 0 with
      | none => rfl
      | some app =>
      dsimp only
      cases verifyGPGSignature env.gpg (decide (app ++ ".sig" ∈ extractedNames es)) with
      | error e => rfl
      | ok u3 =>
      dsimp only
      cases fsLookup fs c.name with
      | none => rfl
      | some st =>
        dsimp only
        by_cases hcomp : hasComposeEntry st.files
        · simp only [if_pos hcomp]
          cases env.composeDown with
          | error e => simp [fsLookup_fsSet_ne _ _ _ _ h]
          | ok u4 =>
            rw [finishDeploy_frame _ _ _ _ _ _ _ h]
            simp [fsLookup_fsSet_ne _ _ _ _ h, fsLookup_fsRemove_ne _ _ _ h]
        · simp only [if_neg hcomp]
          rw [finishDeploy_frame _ _ _ _ _ _ _ h]
          simp [fsLookup_fsSet_ne _ _ _ _ h]

/-- The purge event never appears in a fetch trace literal. -/
theorem isPurge_fetch (u : String) : (Event.fetch u).isPurge = false := rfl

/-- The purge event is distinct from an ensure-running event. -/
theorem isPurge_ensureRunning (d : String) : (Event.ensureRunning d).isPurge = false := rfl

/-- The purge event is distinct from a compose-down event. -/
theorem isPurge_composeDown (d : String) : (Event.composeDown d).isPurge = false := rfl

/-- The purge event is distinct from an image-load event. -/
theorem isPurge_uploadTar (p : String) : (Event.uploadTar p).isPurge = false := rfl

/-- The deployment materialisation step emits no purge event beyond its
input trace. -/
theorem finishDeploy_no_purge (dd : String) (c : Component) (env : CompEnv)
    (fsWith : Fs) (base : DirState) (tr : List Event)
    (htr : ∀ ev ∈ tr, ev.isPurge = false) :
    ∀ ev ∈ (finishDeploy dd c env fsWith base tr).trace, ev.isPurge = false := by
  unfold finishDeploy
  cases env.appPayload with
  | error e => exact htr
  | ok payload =>
    dsimp only
    split
    · intro ev hev
      rcases List.mem_append.1 hev with hl | hr
      · exact htr ev hl
      · simp only [List.mem_singleton] at hr
        subst hr
        exact isPurge_ensureRunning _
    · cases env.upload with
      | error e => exact htr
      | ok u =>
        intro ev hev
        rcases List.mem_append.1 hev with hl | hr
        · rcases List.mem_append.1 hl with hll | hm
          · exact htr ev hll
          · rcases List.mem_map.1 hm with ⟨a, _, rfl⟩
            exact isPurge_uploadTar _
        · simp only [List.mem_singleton] at hr
          subst hr
          exact isPurge_ensureRunning _

/-- One component's pipeline never emits a purge event. -/
theorem processComponent_no_purge (dd : String) (c : Component) (env : CompEnv)
    (fs : Fs) : ∀ ev ∈ (processComponent dd c env fs).trace, ev.isPurge = false := by
  unfold processComponent
  cases (goSplit c.packageLocation "sha256:").get? 1 with
  | none => intro ev hev; cases hev
  | some d =>
    by_cases hup : storedHash fs c.name = some d
    · simp [hup, isPurge_ensureRunning]
    · simp only [if_neg hup]
      cases env.mkTemp with
      | error e => intro ev hev; cases hev
      | ok t =>
      dsimp only
      cases env.keyFetch with
      | error e => simp [isPurge_fetch]
      | ok u1 =>
      dsimp only
      cases env.pkgFetch with
      | error e => simp [isPurge_fetch]
      | ok u2 =>
      dsimp only
      cases env.pkgEntries with
      | error e => simp [isPurge_fetch]
      | ok es =>
      dsimp only
      cases (findAppFiles es).get? 0 with
      | none => simp [isPurge_fetch]
      | some app =>
      dsimp only
      cases verifyGPGSignature env.gpg (decide (app ++ ".sig" ∈ extractedNames es)) with
      | error e => simp [isPurge_fetch]
      | ok u3 =>
      dsimp only
      cases fsLookup fs c.name with
      | none => simp [isPurge_fetch]
      | some st =>
        dsimp only
        have hnet : ∀ ev ∈ [Event.fetch c.keyLocation, Event.fetch c.packageLocation],
            ev.isPurge = false := by simp [isPurge_fetch]
        by_cases hcomp : hasComposeEntry st.files
        · simp only [if_pos hcomp]
          cases env.composeDown with
          | error e => simp [isPurge_fetch, isPurge_composeDown]
          | ok u4 =>
            refine finishDeploy_no_purge _ _ _ _ _ _ ?_
            simp [isPurge_fetch, isPurge_composeDown]
        · simp only [if_neg hcomp]
          exact finishDeploy_no_purge _ _ _ _ _ _ hnet

/-- Running the component loop on an appended manifest runs the prefix
first and continues into the suffix only when the prefix finished
normally. -/
theorem reconcileLoop_append (dd : String) (env : String → CompEnv) :
    ∀ (pre post : List Component) (fs : Fs) (allowed : List String),
      reconcileLoop dd env (pre ++ post) fs allowed =
        (let r := reconcileLoop dd env pre fs allowed
         match r.outcome with
         | Outcome.ok =>
           let r2 := reconcileLoop dd env post r.fs r.allowed
           ⟨r2.fs, r.trace ++ r2.trace, r2.outcome, r2.allowed⟩
         | Outcome.goError e => ⟨r.fs, r.trace, Outcome.goError e, r.allowed⟩
         | Outcome.panicked m => ⟨r.fs, r.trace, Outcome.panicked m, r.allowed⟩) := by
  intro pre
  induction pre with
  | nil =>
    intro post fs allowed
    simp [reconcileLoop]
  | cons c pre ih =>
    intro post fs allowed
    simp only [List.cons_append, reconcileLoop]
    cases hoc : (processComponent dd c (env c.name) fs).outcome with
    | ok =>
      dsimp only
      simp only [List.append_eq]
      rw [ih]
      cases h2 : (reconcileLoop dd env pre (processComponent dd c (env c.name) fs).fs
          (allowed ++ [c.name])).outcome <;>
        simp [h2, List.append_assoc]
    | goError e => simp
    | panicked m => simp

/-- The component loop never emits a purge event. -/
theorem reconcileLoop_no_purge (dd : String) (env : String → CompEnv) :
    ∀ (comps : List Component) (fs : Fs) (allowed : List String),
      ∀ ev ∈ (reconcileLoop dd env comps fs allowed).trace, ev.isPurge = false := by
  intro comps
  induction comps with
  | nil => intro fs allowed ev hev; cases hev
  | cons c rest ih =>
    intro fs allowed
    simp only [reconcileLoop]
    cases hoc : (processComponent dd c (env c.name) fs).outcome with
    | ok =>
      dsimp only
      intro ev hev
      rcases List.mem_append.1 hev with hl | hr
      · exact processComponent_no_purge _ _ _ _ ev hl
      · exact ih _ _ ev hr
    | goError e =>
      intro ev hev
      exact processComponent_no_purge _ _ _ _ ev hev
    | panicked m =>
      intro ev hev
      exact processComponent_no_purge _ _ _ _ ev hev

/-- A component whose stored digest equals the digest embedded in its
package location takes the up-to-date branch: no oracle other than the
stored hash is consulted and the only action is an ensure-running call. -/
theorem processComponent_up_to_date (dd : String) (c : Component) (env : CompEnv)
    (fs : Fs) (d : String)
    (hd : (goSplit c.packageLocation "sha256:").get? 1 = some d)
    (hst : storedHash fs c.name = some d) :
    processComponent dd c env fs =
      ⟨fs, [Event.ensureRunning (dd ++ "/" ++ c.name)], .ok⟩ := by
  unfold processComponent
  simp only [hd]
  rw [if_pos hst]

/-- A loop over components that are all up-to-date leaves the filesystem
unchanged, only ensures each component is running, and records every
component name. -/
theorem reconcileLoop_up_to_date (dd : String) (env : String → CompEnv) :
    ∀ (comps : List Component) (fs : Fs) (allowed : List String),
      (∀ c ∈ comps, ∃ d, (goSplit c.packageLocation "sha256:").get? 1 = some d ∧
          storedHash fs c.name = some d) →
      reconcileLoop dd env comps fs allowed =
        ⟨fs, comps.map (fun c => Event.ensureRunning (dd ++ "/" ++ c.name)), .ok,
         allowed ++ comps.map (·.name)⟩ := by
  intro comps
  induction comps with
  | nil =>
    intro fs allowed h
    simp [reconcileLoop]
  | cons c rest ih =>
    intro fs allowed h
    obtain ⟨d, hd, hst⟩ := h c (List.mem_cons_self c rest)
    simp only [reconcileLoop, processComponent_up_to_date dd c (env c.name) fs d hd hst]
    rw [ih fs (allowed ++ [c.name]) (fun x hx => h x (List.mem_cons_of_mem c hx))]
    simp [List.append_assoc]

/-- The purge phase keeps exactly the directories whose name was recorded
as allowed, each with unchanged state. -/
theorem purgePhase_fst (dd : String) (allowed : List String) :
    ∀ fs : Fs, (purgePhase dd fs allowed).1 =
      fs.filter (fun p => decide (p.1 ∈ allowed)) := by
  intro fs
  induction fs with
  | nil => rfl
  | cons p rest ih =>
    cases p with
    | mk n st =>
      rcases hrec : purgePhase dd rest allowed with ⟨fs2, tr2⟩
      have hfs2 : fs2 = rest.filter (fun p => decide (p.1 ∈ allowed)) := by
        have h3 := ih
        rw [hrec] at h3
        exact h3
      by_cases hn : n ∈ allowed <;>
        simp [purgePhase, hrec, hn, hfs2, List.filter_cons]

/-- The purge phase performs no registry fetch. -/
theorem purgePhase_no_fetch (dd : String) (allowed : List String) :
    ∀ fs : Fs, ∀ ev ∈ (purgePhase dd fs allowed).2, ev.isFetch = false := by
  intro fs
  induction fs with
  | nil => intro ev hev; cases hev
  | cons p rest ih =>
    cases p with
    | mk n st =>
      rcases hrec : purgePhase dd rest allowed with ⟨fs2, tr2⟩
      have ih2 : ∀ ev ∈ tr2, Event.isFetch ev = false := by
        intro ev hev
        have h3 := ih ev
        rw [hrec] at h3
        exact h3 hev
      by_cases hn : n ∈ allowed
      · simp only [purgePhase, hrec, if_pos hn]
        exact ih2
      · simp only [purgePhase, hrec, if_neg hn]
        intro ev hev
        rcases List.mem_cons.1 hev with rfl | hev2
        · rfl
        · rcases List.mem_cons.1 hev2 with rfl | hev3
          · rfl
          · exact ih2 ev hev3

/-- The component loop never touches a deployment directory whose name
matches no processed component. -/
theorem reconcileLoop_frame (dd : String) (env : String → CompEnv) :
    ∀ (comps : List Component) (fs : Fs) (allowed : List String) (n : String),
      n ∉ comps.map (·.name) →
      fsLookup (reconcileLoop dd env comps fs allowed).fs n = fsLookup fs n := by
  intro comps
  induction comps with
  | nil => intro fs allowed n h; rfl
  | cons c rest ih =>
    intro fs allowed n h
    simp only [List.map_cons, List.mem_cons, not_or] at h
    obtain ⟨h1, h2⟩ := h
    simp only [reconcileLoop]
    cases hoc : (processComponent dd c (env c.name) fs).outcome with
    | ok =>
      dsimp only
      rw [ih _ _ n h2]
      exact processComponent_frame _ _ _ _ _ h1
    | goError e => exact processComponent_frame _ _ _ _ _ h1
    | panicked m => exact processComponent_frame _ _ _ _ _ h1

/-- A pass over an all-up-to-date manifest: the loop leaves the filesystem
alone and the purge phase then filters it down to the manifest names. -/
theorem reconcileDeployments_up_to_date (dd : String) (env : String → CompEnv)
    (fs : Fs) (comps : List Component)
    (hup : ∀ c ∈ comps, ∃ d, (goSplit c.packageLocation "sha256:").get? 1 = some d ∧
        storedHash fs c.name = some d) :
    reconcileDeployments dd (.ok comps) env fs =
      ⟨(purgePhase dd fs (comps.map (·.name))).1,
       comps.map (fun c => Event.ensureRunning (dd ++ "/" ++ c.name)) ++
         (purgePhase dd fs (comps.map (·.name))).2,
       .ok⟩ := by
  have hloop := reconcileLoop_up_to_date dd env comps fs [] hup
  unfold reconcileDeployments
  dsimp only
  rw [hloop]
  dsimp only
  rcases hp : purgePhase dd fs (comps.map (·.name)) with ⟨fs2, tr2⟩
  simp only [List.nil_append, hp]

/-- A component whose package location does not embed a digest makes the
pipeline panic immediately: element 1 of the split does not exist. -/
theorem processComponent_split_none (dd : String) (c : Component) (env : CompEnv)
    (fs : Fs) (h : (goSplit c.packageLocation "sha256:").get? 1 = none) :
    processComponent dd c env fs =
      ⟨fs, [], .panicked "runtime error: index out of range [1] with length 1"⟩ := by
  unfold processComponent
  rw [h]

/-- A stale component whose fetched, extracted package yields no `.app`
file makes the pipeline panic: element 0 of the empty list of app files
does not exist. -/
theorem processComponent_no_app (dd : String) (c : Component) (env : CompEnv)
    (fs : Fs) (d t : String) (es : List TarEntry)
    (hd : (goSplit c.packageLocation "sha256:").get? 1 = some d)
    (hst : storedHash fs c.name ≠ some d)
    (hmk : env.mkTemp = .ok t)
    (hkey : env.keyFetch = .ok ())
    (hpkg : env.pkgFetch = .ok ())
    (hes : env.pkgEntries = .ok es)
    (happ : findAppFiles es = []) :
    processComponent dd c env fs =
      ⟨fs, [Event.fetch c.keyLocation, Event.fetch c.packageLocation],
       .panicked "runtime error: index out of range [0] with length 0"⟩ := by
  unfold processComponent
  rw [hd]
  dsimp only
  rw [if_neg hst, hmk]
  dsimp only
  rw [hkey]
  dsimp only
  rw [hpkg]
  dsimp only
  rw [hes]
  dsimp only
  rw [happ]
  rfl

/-- A stale component whose pipeline reaches signature checking and whose
detached-signature check fails returns the wrapped verification error with
the filesystem untouched: the digest write, teardown and extraction all
come after verification. -/
theorem processComponent_sig_invalid (dd : String) (c : Component) (env : CompEnv)
    (fs : Fs) (d t app m : String) (es : List TarEntry)
    (hd : (goSplit c.packageLocation "sha256:").get? 1 = some d)
    (hst : storedHash fs c.name ≠ some d)
    (hmk : env.mkTemp = .ok t)
    (hkey : env.keyFetch = .ok ())
    (hpkg : env.pkgFetch = .ok ())
    (hes : env.pkgEntries = .ok es)
    (happ : (findAppFiles es).get? 0 = some app)
    (hkr : env.gpg.keyringParse = .ok ())
    (hsig : (app ++ ".sig") ∈ extractedNames es)
    (hchk : env.gpg.checkResult = .error m) :
    processComponent dd c env fs =
      ⟨fs, [Event.fetch c.keyLocation, Event.fetch c.packageLocation],
       .goError ("signature verification failed: " ++ m)⟩ := by
  have hv : verifyGPGSignature env.gpg (decide ((app ++ ".sig") ∈ extractedNames es)) =
      .error ("signature verification failed: " ++ m) := by
    unfold verifyGPGSignature
    rw [hkr]
    simp [hsig, hchk]
  unfold processComponent
  rw [hd]
  dsimp only
  rw [if_neg hst, hmk]
  dsimp only
  rw [hkey]
  dsimp only
  rw [hpkg]
  dsimp only
  rw [hes]
  dsimp only
  rw [happ]
  dsimp only
  rw [hv]

/-- C7: with the skip-hidden flag set, extraction of a decoded archive
never fails, produces no filesystem effect for an entry whose name begins
with `.` or whose type flag is neither directory nor regular file, and
still produces the directory or file effect of every other entry. -/
theorem C7_skip_hidden_and_unsupported (es : List TarEntry) (d : String) :
    unpackTgz (.ok es) d true =
      .ok (es.filterMap fun e => if goHasPrefix e.name "." then none else entryOp d e) := by
  show Except.ok (unpackEntries d true es) = _
  congr 1
  induction es with
  | nil => rfl
  | cons e rest ih =>
    by_cases h : goHasPrefix e.name "."
    · simp [unpackEntries, h, ih, List.filterMap_cons]
    · by_cases h5 : e.typeflag = tarTypeDir
      · simp [unpackEntries, h, h5, entryOp, ih, List.filterMap_cons]
      · by_cases h0 : e.typeflag = tarTypeReg
        · simp [unpackEntries, h, h5, h0, entryOp, ih, List.filterMap_cons,
            tarTypeReg, tarTypeDir]
        · simp [unpackEntries, h, h5, h0, entryOp, ih, List.filterMap_cons]

/-- C8: `unpackTgz` neither rejects nor sanitizes entry names that escape
the destination directory: for an entry named `a/../../evil.txt`, the
target computed by joining the destination `/deploy/comp` with the entry
name is `/deploy/evil.txt`, which lies outside the destination directory,
and the file is written there. -/
theorem C8_path_traversal_not_guarded :
    unpackTgz (.ok [⟨"a/../../evil.txt", tarTypeReg, 420, "x"⟩]) "/deploy/comp" true =
      .ok [FsOp.writeFile "/deploy/evil.txt" 420 "x"] ∧
    filepathJoin "/deploy/comp" "a/../../evil.txt" = "/deploy/evil.txt" ∧
    goHasPrefix "/deploy/evil.txt" "/deploy/comp/" = false := by
  refine ⟨?_, ?_, ?_⟩ <;> decide

/-- C1 is false on the code: in the two-component pass where component A
is stale and its key fetch fails with a network error while component B's
pipeline would succeed, the pass aborts at A.  Component B is not
processed (its locations are never fetched and its directory is never
ensured running), the stale directory C is not purged, and the error is
returned from the pass. -/
theorem C1_counterexample_pass_aborts :
    (reconcileDeployments "./deploy" (.ok [compA, compB]) envC1 [("C", dirC)]).outcome =
        .goError "network error" ∧
    (reconcileDeployments "./deploy" (.ok [compA, compB]) envC1 [("C", dirC)]).trace =
        [Event.fetch compA.keyLocation] ∧
    Event.fetch compB.keyLocation ∉
        (reconcileDeployments "./deploy" (.ok [compA, compB]) envC1 [("C", dirC)]).trace ∧
    Event.ensureRunning "./deploy/B" ∉
        (reconcileDeployments "./deploy" (.ok [compA, compB]) envC1 [("C", dirC)]).trace ∧
    Event.purged "C" ∉
        (reconcileDeployments "./deploy" (.ok [compA, compB]) envC1 [("C", dirC)]).trace ∧
    fsLookup (reconcileDeployments "./deploy" (.ok [compA, compB]) envC1
        [("C", dirC)]).fs "C" = some dirC := by
  refine ⟨?_, ?_, ?_, ?_, ?_, ?_⟩ <;> decide

/-- C1 (amended): a per-component error aborts the entire pass, not only
that component.  The loop result at a failing component does not depend on
the later components at all, and a pass that returns an error has executed
no purge event; the error is returned to the control loop for logging and
the next tick retries. -/
theorem C1_amended_failure_aborts_pass (dd : String) (env : String → CompEnv) :
    (∀ (c : Component) (rest : List Component) (fs : Fs) (allowed : List String)
        (e : String),
        (processComponent dd c (env c.name) fs).outcome = Outcome.goError e →
        reconcileLoop dd env (c :: rest) fs allowed =
          ⟨(processComponent dd c (env c.name) fs).fs,
           (processComponent dd c (env c.name) fs).trace, Outcome.goError e,
           allowed ++ [c.name]⟩) ∧
    (∀ (comps : List Component) (fs : Fs) (e : String),
        (reconcileDeployments dd (Except.ok comps) env fs).outcome = Outcome.goError e →
        (reconcileDeployments dd (Except.ok comps) env fs).fs =
            (reconcileLoop dd env comps fs []).fs ∧
        ∀ ev ∈ (reconcileDeployments dd (Except.ok comps) env fs).trace,
          ev.isPurge = false) := by
  constructor
  · intro c rest fs allowed e h
    simp only [reconcileLoop, h]
  · intro comps fs e h
    cases hl : (reconcileLoop dd env comps fs []).outcome with
    | ok =>
      exfalso
      rcases hp : purgePhase dd (reconcileLoop dd env comps fs []).fs
          (reconcileLoop dd env comps fs []).allowed with ⟨fs2, tr2⟩
      simp only [reconcileDeployments, hl, hp] at h
      cases h
    | goError e2 =>
      have hres : reconcileDeployments dd (Except.ok comps) env fs =
          ⟨(reconcileLoop dd env comps fs []).fs,
           (reconcileLoop dd env comps fs []).trace, .goError e2⟩ := by
        simp only [reconcileDeployments, hl]
      rw [hres]
      exact ⟨rfl, fun ev hev => reconcileLoop_no_purge dd env comps fs [] ev hev⟩
    | panicked m =>
      exfalso
      have hres : reconcileDeployments dd (Except.ok comps) env fs =
          ⟨(reconcileLoop dd env comps fs []).fs,
           (reconcileLoop dd env comps fs []).trace, .panicked m⟩ := by
        simp only [reconcileDeployments, hl]
      rw [hres] at h
      cases h

/-- Witness for the amended C1 theorem: the concrete failing pass. -/
theorem C1_amended_failure_aborts_pass_witness :
    reconcileLoop "./deploy" envC1 [compA, compB] [("C", dirC)] [] =
      ⟨[("C", dirC)], [Event.fetch compA.keyLocation],
       Outcome.goError "network error", ["A"]⟩ ∧
    ∀ ev ∈ (reconcileDeployments "./deploy" (Except.ok [compA, compB]) envC1
        [("C", dirC)]).trace, ev.isPurge = false := by
  constructor
  · rw [(C1_amended_failure_aborts_pass "./deploy" envC1).1 compA [compB]
      [("C", dirC)] [] "network error" (by decide)]
    decide
  · exact fun ev hev =>
      ((C1_amended_failure_aborts_pass "./deploy" envC1).2 [compA, compB]
        [("C", dirC)] "network error" (by decide)).2 ev hev

/-- C2 is right about the intent but the code fails on it: with component
A up-to-date and component B having no deployment directory at all, a pass
whose oracles for B all succeed still errors, because the stored-digest
file is written before B's deployment directory is created; B ends up
neither deployed nor running. -/
theorem C2_fresh_component_write_fails :
    (reconcileDeployments "./deploy" (.ok [compA, compB]) (fun _ => envOkB)
        [("A", dirA)]).outcome =
      .goError "open ./deploy/B/.hash: no such file or directory" ∧
    fsLookup (reconcileDeployments "./deploy" (.ok [compA, compB]) (fun _ => envOkB)
        [("A", dirA)]).fs "B" = none ∧
    Event.ensureRunning "./deploy/B" ∉
      (reconcileDeployments "./deploy" (.ok [compA, compB]) (fun _ => envOkB)
        [("A", dirA)]).trace := by
  refine ⟨?_, ?_, ?_⟩ <;> decide

/-- C5 is right about the intent but the code fails on it for the
re-apply path: a successful apply of a component whose existing directory
declares a compose descriptor first writes the new digest, then removes
the whole directory (digest file included) and never rewrites it, so after
the pass the stored digest file does not exist. -/
theorem C5_teardown_reapply_loses_digest :
    (reconcileDeployments "./deploy" (.ok [compB]) (fun _ => envOkB)
        [("B", dirBCompose)]).outcome = .ok ∧
    storedHash (reconcileDeployments "./deploy" (.ok [compB]) (fun _ => envOkB)
        [("B", dirBCompose)]).fs "B" = none ∧
    fsLookup (reconcileDeployments "./deploy" (.ok [compB]) (fun _ => envOkB)
        [("B", dirBCompose)]).fs "B" ≠ none := by
  refine ⟨?_, ?_, ?_⟩ <;> decide

/-- C3: a component whose pipeline reaches the detached-signature check
and fails it leaves the pass with that component's directory (stored
digest file and contents) exactly as before the pass: no digest write, no
teardown, no extraction into the deployment directory happen, and the pass
ends with the wrapped verification error. -/
theorem C3_invalid_signature_changes_nothing (dd : String) (env : String → CompEnv)
    (fs : Fs) (pre rest : List Component) (c : Component) (d t app m : String)
    (es : List TarEntry)
    (hpre : (reconcileLoop dd env pre fs []).outcome = .ok)
    (hname : c.name ∉ pre.map (·.name))
    (hd : (goSplit c.packageLocation "sha256:").get? 1 = some d)
    (hst : storedHash fs c.name ≠ some d)
    (hmk : (env c.name).mkTemp = .ok t)
    (hkey : (env c.name).keyFetch = .ok ())
    (hpkg : (env c.name).pkgFetch = .ok ())
    (hes : (env c.name).pkgEntries = .ok es)
    (happ : (findAppFiles es).get? 0 = some app)
    (hkr : (env c.name).gpg.keyringParse = .ok ())
    (hsig : (app ++ ".sig") ∈ extractedNames es)
    (hchk : (env c.name).gpg.checkResult = .error m) :
    fsLookup (reconcileDeployments dd (.ok (pre ++ c :: rest)) env fs).fs c.name =
        fsLookup fs c.name ∧
    (reconcileDeployments dd (.ok (pre ++ c :: rest)) env fs).outcome =
        .goError ("signature verification failed: " ++ m) := by
  have hst1 : storedHash (reconcileLoop dd env pre fs []).fs c.name ≠ some d := by
    unfold storedHash
    rw [reconcileLoop_frame dd env pre fs [] c.name hname]
    exact hst
  have hc := processComponent_sig_invalid dd c (env c.name)
    (reconcileLoop dd env pre fs []).fs d t app m es hd hst1 hmk hkey hpkg hes happ
    hkr hsig hchk
  have hloop2 : ∀ allowed, reconcileLoop dd env (c :: rest)
      (reconcileLoop dd env pre fs []).fs allowed =
      ⟨(reconcileLoop dd env pre fs []).fs,
       [Event.fetch c.keyLocation, Event.fetch c.packageLocation],
       Outcome.goError ("signature verification failed: " ++ m), allowed ++ [c.name]⟩ := by
    intro allowed
    simp only [reconcileLoop, hc]
  have hres : reconcileDeployments dd (.ok (pre ++ c :: rest)) env fs =
      ⟨(reconcileLoop dd env pre fs []).fs,
       (reconcileLoop dd env pre fs []).trace ++
         [Event.fetch c.keyLocation, Event.fetch c.packageLocation],
       Outcome.goError ("signature verification failed: " ++ m)⟩ := by
    unfold reconcileDeployments
    dsimp only
    rw [reconcileLoop_append dd env pre (c :: rest) fs []]
    simp only [hpre]
    rw [hloop2]
  rw [hres]
  exact ⟨reconcileLoop_frame dd env pre fs [] c.name hname, rfl⟩

/-- Witness for C3: component B alone on an empty deployment root, with a
failing detached-signature check, ends the pass with the verification
error and without creating B's directory. -/
theorem C3_invalid_signature_changes_nothing_witness :
    fsLookup (reconcileDeployments "./deploy" (.ok ([] ++ compB :: [])) (fun _ => envSigFailB)
        []).fs "B" = fsLookup [] "B" ∧
    (reconcileDeployments "./deploy" (.ok ([] ++ compB :: [])) (fun _ => envSigFailB)
        []).outcome =
      .goError ("signature verification failed: " ++ "openpgp: invalid signature") := by
  exact C3_invalid_signature_changes_nothing "./deploy" (fun _ => envSigFailB) [] [] []
    compB "bbbb1111" "/tmp/B1234" "b.app" "openpgp: invalid signature" pkgEntriesB
    (by decide) (by decide) (by decide) (by decide) (by decide) (by decide)
    (by decide) (by decide) (by decide) (by decide) (by decide) (by decide)

/-- C4: a pass over a manifest in which every component's stored digest
file is present and equal to the digest embedded in its package location
performs no registry fetch at all: every component takes the up-to-date
branch, which only reads the digest file and ensures the deployment is
running, and the pass succeeds. -/
theorem C4_up_to_date_pass_fetches_nothing (dd : String) (env : String → CompEnv)
    (fs : Fs) (comps : List Component)
    (hup : ∀ c ∈ comps, ∃ d, (goSplit c.packageLocation "sha256:").get? 1 = some d ∧
        storedHash fs c.name = some d) :
    (reconcileDeployments dd (.ok comps) env fs).outcome = .ok ∧
    ∀ ev ∈ (reconcileDeployments dd (.ok comps) env fs).trace, ev.isFetch = false := by
  rw [reconcileDeployments_up_to_date dd env fs comps hup]
  refine ⟨rfl, ?_⟩
  intro ev hev
  rcases List.mem_append.1 hev with hl | hr
  · rcases List.mem_map.1 hl with ⟨a, _, rfl⟩
    rfl
  · exact purgePhase_no_fetch dd _ fs ev hr

/-- Witness for C4: the second pass over the already converged directories
A and B performs zero fetches and succeeds. -/
theorem C4_up_to_date_pass_fetches_nothing_witness :
    (reconcileDeployments "./deploy" (.ok [compA, compB]) (fun _ => envOkB)
        fsABC).outcome = .ok ∧
    ∀ ev ∈ (reconcileDeployments "./deploy" (.ok [compA, compB]) (fun _ => envOkB)
        fsABC).trace, ev.isFetch = false := by
  refine C4_up_to_date_pass_fetches_nothing "./deploy" (fun _ => envOkB) fsABC
    [compA, compB] ?_
  intro c hc
  rcases List.mem_cons.1 hc with rfl | hc2
  · exact ⟨"aaaa1111", by decide, by decide⟩
  · rcases List.mem_cons.1 hc2 with rfl | hc3
    · exact ⟨"bbbb1111", by decide, by decide⟩
    · cases hc3

/-- C6: a pass over a manifest whose components are all up-to-date leaves
exactly the manifest-named directories, each with unchanged state, and
removes every other top-level directory; the pass succeeds. -/
theorem C6_purge_removes_only_stale (dd : String) (env : String → CompEnv)
    (fs : Fs) (comps : List Component)
    (hup : ∀ c ∈ comps, ∃ d, (goSplit c.packageLocation "sha256:").get? 1 = some d ∧
        storedHash fs c.name = some d) :
    (reconcileDeployments dd (.ok comps) env fs).fs =
        fs.filter (fun p => decide (p.1 ∈ comps.map (·.name))) ∧
    (reconcileDeployments dd (.ok comps) env fs).outcome = .ok := by
  rw [reconcileDeployments_up_to_date dd env fs comps hup]
  exact ⟨purgePhase_fst dd (comps.map (·.name)) fs, rfl⟩

/-- Witness for C6: directories A, B, C with a manifest naming only A and
B whose digests match: C is removed, A and B stay unchanged. -/
theorem C6_purge_removes_only_stale_witness :
    (reconcileDeployments "./deploy" (.ok [compA, compB]) (fun _ => envOkB)
        fsABC).fs = [("A", dirA), ("B", dirB)] ∧
    (reconcileDeployments "./deploy" (.ok [compA, compB]) (fun _ => envOkB)
        fsABC).outcome = .ok := by
  have h := C6_purge_removes_only_stale "./deploy" (fun _ => envOkB) fsABC
    [compA, compB] ?hup
  case hup =>
    intro c hc
    rcases List.mem_cons.1 hc with rfl | hc2
    · exact ⟨"aaaa1111", by decide, by decide⟩
    · rcases List.mem_cons.1 hc2 with rfl | hc3
      · exact ⟨"bbbb1111", by decide, by decide⟩
      · cases hc3
  refine ⟨?_, h.2⟩
  rw [h.1]
  decide

/-- C9: a manifest containing a component whose package location does not
embed a `sha256:` digest makes the pass panic (indexing element 1 of a
one-element split result) as soon as that component is reached, rather
than failing with an error: the pass is total only under the precondition
that every package location embeds a digest. -/
theorem C9_missing_digest_marker_panics (dd : String) (env : String → CompEnv)
    (fs : Fs) (pre rest : List Component) (c : Component)
    (hd : (goSplit c.packageLocation "sha256:").get? 1 = none)
    (hpre : (reconcileLoop dd env pre fs []).outcome = .ok) :
    (reconcileDeployments dd (.ok (pre ++ c :: rest)) env fs).outcome =
      .panicked "runtime error: index out of range [1] with length 1" := by
  have hc := processComponent_split_none dd c (env c.name)
    (reconcileLoop dd env pre fs []).fs hd
  have hloop2 : ∀ allowed, reconcileLoop dd env (c :: rest)
      (reconcileLoop dd env pre fs []).fs allowed =
      ⟨(reconcileLoop dd env pre fs []).fs, [],
       Outcome.panicked "runtime error: index out of range [1] with length 1",
       allowed ++ [c.name]⟩ := by
    intro allowed
    simp only [reconcileLoop, hc]
  have hres : reconcileDeployments dd (.ok (pre ++ c :: rest)) env fs =
      ⟨(reconcileLoop dd env pre fs []).fs,
       (reconcileLoop dd env pre fs []).trace ++ [],
       Outcome.panicked "runtime error: index out of range [1] with length 1"⟩ := by
    unfold reconcileDeployments
    dsimp only
    rw [reconcileLoop_append dd env pre (c :: rest) fs []]
    simp only [hpre]
    rw [hloop2]
  rw [hres]

/-- Witness for C9: a one-component manifest whose package location lacks
the digest marker panics the pass. -/
theorem C9_missing_digest_marker_panics_witness :
    (reconcileDeployments "./deploy" (.ok ([] ++ compBad :: [])) (fun _ => envOkB)
        []).outcome =
      .panicked "runtime error: index out of range [1] with length 1" :=
  C9_missing_digest_marker_panics "./deploy" (fun _ => envOkB) [] [] [] compBad
    (by decide) (by decide)

/-- C10: a stale component whose fetched package, extracted with hidden
entries skipped, contains no file ending in `.app` makes the pass panic
(indexing element 0 of the empty app-file list) instead of failing that
component's apply with an error: totality needs the precondition that the
package contains an application descriptor. -/
theorem C10_no_app_descriptor_panics (dd : String) (env : String → CompEnv)
    (fs : Fs) (pre rest : List Component) (c : Component) (d t : String)
    (es : List TarEntry)
    (hpre : (reconcileLoop dd env pre fs []).outcome = .ok)
    (hname : c.name ∉ pre.map (·.name))
    (hd : (goSplit c.packageLocation "sha256:").get? 1 = some d)
    (hst : storedHash fs c.name ≠ some d)
    (hmk : (env c.name).mkTemp = .ok t)
    (hkey : (env c.name).keyFetch = .ok ())
    (hpkg : (env c.name).pkgFetch = .ok ())
    (hes : (env c.name).pkgEntries = .ok es)
    (happ : findAppFiles es = []) :
    (reconcileDeployments dd (.ok (pre ++ c :: rest)) env fs).outcome =
      .panicked "runtime error: index out of range [0] with length 0" := by
  have hst1 : storedHash (reconcileLoop dd env pre fs []).fs c.name ≠ some d := by
    unfold storedHash
    rw [reconcileLoop_frame dd env pre fs [] c.name hname]
    exact hst
  have hc := processComponent_no_app dd c (env c.name)
    (reconcileLoop dd env pre fs []).fs d t es hd hst1 hmk hkey hpkg hes happ
  have hloop2 : ∀ allowed, reconcileLoop dd env (c :: rest)
      (reconcileLoop dd env pre fs []).fs allowed =
      ⟨(reconcileLoop dd env pre fs []).fs,
       [Event.fetch c.keyLocation, Event.fetch c.packageLocation],
       Outcome.panicked "runtime error: index out of range [0] with length 0",
       allowed ++ [c.name]⟩ := by
    intro allowed
    simp only [reconcileLoop, hc]
  have hres : reconcileDeployments dd (.ok (pre ++ c :: rest)) env fs =
      ⟨(reconcileLoop dd env pre fs []).fs,
       (reconcileLoop dd env pre fs []).trace ++
         [Event.fetch c.keyLocation, Event.fetch c.packageLocation],
       Outcome.panicked "runtime error: index out of range [0] with length 0"⟩ := by
    unfold reconcileDeployments
    dsimp only
    rw [reconcileLoop_append dd env pre (c :: rest) fs []]
    simp only [hpre]
    rw [hloop2]
  rw [hres]

/-- Witness for C10: component B alone, fetched as a package holding only
a readme, panics the pass. -/
theorem C10_no_app_descriptor_panics_witness :
    (reconcileDeployments "./deploy" (.ok ([] ++ compB :: [])) (fun _ => envNoAppB)
        []).outcome =
      .panicked "runtime error: index out of range [0] with length 0" :=
  C10_no_app_descriptor_panics "./deploy" (fun _ => envNoAppB) [] [] [] compB
    "bbbb1111" "/tmp/B1234" [⟨"readme.txt", tarTypeReg, 420, "hello"⟩]
    (by decide) (by decide) (by decide) (by decide) (by decide) (by decide)
    (by decide) (by decide) (by decide)

end OciWatcher
